import Mathlib

/-!
DDR4 DIMM test bench driver (`src/dimm_tb2.cpp`)

A shallow embedding of the command driver of the test bench: the global
device handle `dut`, the simulation clock `sim_time`, the trace sink
`m_trace`, and the functions `toggleClock`, `dut_reset`, `activate`,
`precharge`, `write_command`, `read_command` and `main`.

Modelling conventions.

* The input ports of the device are fields of `Pins`, each a natural number
  kept inside its C storage type by an explicit `% 2 ^ w` at every assignment.
* The device model itself is not part of the repository.  Its internal state
  (registers, output ports) is a value of an arbitrary type `σ`, and one call
  of `dut->eval()` is a function `ev : Pins → σ → σ` given as a parameter: the
  call reads the input ports and updates the internals, it never assigns an
  input port.  Every theorem holds for every `σ` and every `ev`.
* Calls that leave the program (`dut->eval()`, `m_trace->dump(t)`) are
  recorded, in program order, in the `events` field of the state.
* The two `while` loops (`activate`, `main`) take a fuel argument and return
  `none` when it runs out; a call returns when some fuel gives `some` result.
-/

namespace DimmTb2

/-! ## Constants of the source -/

/-- Source constant `ACTIVATION_LATENCY`; no function of the source uses it. -/
def ACTIVATION_LATENCY : Nat := 8

/-- Source constant `PRECHARGE_LATENCY`; no function of the source uses it. -/
def PRECHARGE_LATENCY : Nat := 5

/-- Source constant `COL_BITS`. -/
def COL_BITS : Nat := 4

/-- Source constant `BURST_LOAD`. -/
def BURST_LOAD : Nat := 8

/-- Source constant `max_sim_time`. -/
def max_sim_time : Nat := 6000

/-- Modelled from the spec: the storage width of the one-bit and two-bit ports
`clk_in`, `rst_N_in`, `cs_N_in`, `cke_in`, `act_in`, `bg_in`, `ba_in`,
`dqm_in`, declared in the absent header `Vddr4_dimm.h` (section 6 of the spec
gives `bank_group[0:0]` and `bank[1:0]`); a Verilated port of at most 8 bits is
a `uint8_t`. -/
def W8 : Nat := 8

/-- Modelled from the spec: the storage width of `addr_in`, declared in the
absent header `Vddr4_dimm.h` (section 6 of the spec gives `address[16:0]`); a
Verilated port of 9 to 32 bits is a `uint32_t`. -/
def W32 : Nat := 32

/-- Width of `vluint64_t` (`sim_time`), of `uint64_t` (the payload words) and,
modelled from the spec's 64-bit data words, of the port `dqs`. -/
def W64 : Nat := 64

/-! ## State -/

/-- Input ports of the device handle `dut`. -/
structure Pins where
  clk_in : Nat
  rst_N_in : Nat
  cs_N_in : Nat
  cke_in : Nat
  act_in : Nat
  addr_in : Nat
  bg_in : Nat
  ba_in : Nat
  dqm_in : Nat
  dqs : Nat
  deriving DecidableEq, Repr

/-- Calls that leave the program: one device evaluation (with the input ports
the device sees) or one trace record (with its timestamp and the input ports
it captures). -/
inductive Event where
  | eval (p : Pins)
  | dump (t : Nat) (p : Pins)
  deriving DecidableEq, Repr

/-- Global state of the test bench: the ports of `dut`, the internals of the
device model, the counter `sim_time`, and the chronological record of the
calls to `eval` and `dump`. -/
structure State (σ : Type) where
  pins : Pins
  model : σ
  sim_time : Nat
  events : List Event

/-- The command frame on the pins: `(cs_N_in, act_in, addr_in, bg_in, ba_in)`. -/
def frame (p : Pins) : Nat × Nat × Nat × Nat × Nat :=
  (p.cs_N_in, p.act_in, p.addr_in, p.bg_in, p.ba_in)

/-- The command frame together with the data pin `dqs`. -/
def frameDqs (p : Pins) : Nat × Nat × Nat × Nat × Nat × Nat :=
  (p.cs_N_in, p.act_in, p.addr_in, p.bg_in, p.ba_in, p.dqs)

/-! ## Primitive statements -/

/-- Statement `dut->eval();`. -/
def doEval {σ : Type} (ev : Pins → σ → σ) (s : State σ) : State σ :=
  { s with model := ev s.pins s.model, events := s.events ++ [Event.eval s.pins] }

/-- Statement `m_trace->dump(sim_time);`. -/
def doDump {σ : Type} (s : State σ) : State σ :=
  { s with events := s.events ++ [Event.dump s.sim_time s.pins] }

/-- Statement `x |= (1 << k);` on a 32-bit port. -/
def setBit32 (k x : Nat) : Nat := (x ||| (1 <<< k)) % 2 ^ W32

/-- Statement `x &= ~(1 << k);` on a 32-bit port: the `int` value `~(1 << k)`
converts to the unsigned `2^32 - 1 - 2^k`. -/
def clearBit32 (k x : Nat) : Nat := (x &&& (2 ^ W32 - 1 - (1 <<< k))) % 2 ^ W32

/-! ## `toggleClock` -/

/-- Statement `dut->clk_in ^= 1;` on the 8-bit clock port. -/
def flipClk (c : Nat) : Nat := (c ^^^ 1) % 2 ^ W8

/-- One iteration of the loop body of `toggleClock`. -/
def toggleStep {σ : Type} (ev : Pins → σ → σ) (s : State σ) : State σ :=
  let s := { s with sim_time := (s.sim_time + 5) % 2 ^ W64 }
  let s := { s with pins := { s.pins with clk_in := flipClk s.pins.clk_in } }
  let s := doEval ev s
  let s := doEval ev s
  doDump s

/-- The loop `for (int i = 0; i < num; i++)` with `n` iterations left. -/
def toggleLoop {σ : Type} (ev : Pins → σ → σ) : Nat → State σ → State σ
  | 0, s => s
  | n + 1, s => toggleLoop ev n (toggleStep ev s)

/-- Source function `toggleClock(int num)`: the loop runs `num` times when
`num` is positive and not at all otherwise.  The default argument of the source
is `num = 2`; call sites written `toggleClock()` are `toggleClock ev 2`. -/
def toggleClock {σ : Type} (ev : Pins → σ → σ) (num : Int) (s : State σ) : State σ :=
  toggleLoop ev num.toNat s

/-! ## `dut_reset` -/

/-- Source function `dut_reset`. -/
def dut_reset {σ : Type} (s : State σ) : State σ :=
  let s := { s with pins := { s.pins with rst_N_in := 1 } }
  if 0 ≤ s.sim_time ∧ s.sim_time ≤ max_sim_time then
    { s with pins := { s.pins with
        rst_N_in := 0, cs_N_in := 1, cke_in := 0, act_in := 0, addr_in := 0,
        bg_in := 0, ba_in := 0, dqm_in := 0, dqs := 0 } }
  else s

/-! ## Commands -/

/-- Source function `precharge(uint8_t bank_num)`. -/
def precharge {σ : Type} (bank_num : Nat) (s : State σ) : State σ :=
  let bank_num := bank_num % 2 ^ 8
  let p := s.pins
  -- assign bank group bits
  let p := { p with bg_in := (p.bg_in ||| (bank_num &&& 1)) % 2 ^ W8 }
  let p := { p with ba_in := (p.ba_in ||| ((bank_num &&& 6) >>> 1)) % 2 ^ W8 }
  -- control signal assignments
  let p := { p with cs_N_in := 0 }
  let p := { p with act_in := 1 }
  -- reset address register
  let p := { p with addr_in := 0 }
  -- set the specific address bits needed manually
  let p := { p with addr_in := clearBit32 16 p.addr_in }
  let p := { p with addr_in := setBit32 15 p.addr_in }
  let p := { p with addr_in := clearBit32 14 p.addr_in }
  -- set chip select
  let p := { p with cs_N_in := 1 }
  -- zero out dqs reg
  let p := { p with dqs := 0 }
  { s with pins := p }

/-- Statement `dut->dqs = data_to_write[i];` with `w` the word read from the
array. -/
def setDqs {σ : Type} (w : Nat) (s : State σ) : State σ :=
  { s with pins := { s.pins with dqs := w % 2 ^ W64 } }

/-- Source function `write_command(bool pre, bitset<COL_BITS> col,
uint8_t bank_num, uint64_t (&data_to_write)[8])`.  The assignment of
`data_to_write[4]` lacks its closing semicolon in the source; it is read as the
assignment it spells. -/
def write_command {σ : Type} (ev : Pins → σ → σ) (pre : Bool) (col : Fin (2 ^ COL_BITS))
    (bank_num : Nat) (data_to_write : Fin 8 → Nat) (s : State σ) : State σ :=
  let bank_num := bank_num % 2 ^ 8
  let p := s.pins
  -- assigning bank group bits
  let p := { p with bg_in := (p.bg_in ||| (bank_num &&& 1)) % 2 ^ W8 }
  let p := { p with ba_in := (p.ba_in ||| ((bank_num &&& 6) >>> 1)) % 2 ^ W8 }
  -- control signal assignments
  let p := { p with cs_N_in := 0 }
  let p := { p with act_in := 0 }
  -- reset address register
  let p := { p with addr_in := 0 }
  -- set the column address
  let p := { p with addr_in := (p.addr_in ||| (col.val &&& ((1 <<< COL_BITS) - 1))) % 2 ^ W32 }
  -- setting specific bits manually
  let p := { p with addr_in := setBit32 16 p.addr_in }
  let p := { p with addr_in := clearBit32 15 p.addr_in }
  let p := { p with addr_in := clearBit32 14 p.addr_in }
  let s := { s with pins := p }
  -- data phase
  let s := setDqs (data_to_write 0) s
  let s := setDqs (data_to_write 1) s
  let s := toggleClock ev 2 s
  let s := setDqs (data_to_write 2) s
  let s := setDqs (data_to_write 3) s
  let s := toggleClock ev 2 s
  let s := setDqs (data_to_write 4) s
  let s := setDqs (data_to_write 5) s
  let s := toggleClock ev 2 s
  let s := setDqs (data_to_write 6) s
  let s := setDqs (data_to_write 7) s
  let s := toggleClock ev 2 s
  -- precharge
  let p := s.pins
  let p := if pre then { p with addr_in := setBit32 10 p.addr_in }
           else { p with addr_in := clearBit32 10 p.addr_in }
  let p := { p with cs_N_in := 1 }
  let p := { p with dqs := 0 }
  { s with pins := p }

/-- Source function `read_command(bool pre, bitset<COL_BITS> col,
uint8_t bank_num)`. -/
def read_command {σ : Type} (pre : Bool) (col : Fin (2 ^ COL_BITS)) (bank_num : Nat)
    (s : State σ) : State σ :=
  let bank_num := bank_num % 2 ^ 8
  let p := s.pins
  -- assigning bank group bits
  let p := { p with bg_in := (p.bg_in ||| (bank_num &&& 1)) % 2 ^ W8 }
  let p := { p with ba_in := (p.ba_in ||| ((bank_num &&& 6) >>> 1)) % 2 ^ W8 }
  -- control signal assignments
  let p := { p with cs_N_in := 0 }
  let p := { p with act_in := 0 }
  -- reset address register
  let p := { p with addr_in := 0 }
  -- set the column address
  let p := { p with addr_in := (p.addr_in ||| (col.val &&& ((1 <<< COL_BITS) - 1))) % 2 ^ W32 }
  -- setting specific bits manually
  let p := { p with addr_in := setBit32 16 p.addr_in }
  let p := { p with addr_in := clearBit32 15 p.addr_in }
  let p := { p with addr_in := setBit32 14 p.addr_in }
  -- precharge
  let p := if pre then { p with addr_in := setBit32 10 p.addr_in }
           else { p with addr_in := clearBit32 10 p.addr_in }
  let p := { p with cs_N_in := 1 }
  let p := { p with dqs := 0 }
  { s with pins := p }

/-! ## `activate` -/

/-- Body of the loop of `activate`. -/
def activateBody {σ : Type} (bank_num row : Nat) (s : State σ) : State σ :=
  let p := s.pins
  let p := { p with cs_N_in := 0 }
  let p := { p with act_in := 0 }
  let p := { p with addr_in := 0 }
  let p := { p with addr_in := row % 2 ^ W32 }
  let p := { p with bg_in := bank_num % 2 ^ W8 }
  { s with pins := p }

/-- The loop `while (clock) { ... }` of `activate`: the body never assigns
`clock`, so every iteration tests the same value. -/
def activateLoop {σ : Type} : Nat → Nat → Nat → Nat → State σ → Option (State σ)
  | 0, _, _, _, _ => none
  | fuel + 1, bank_num, row, clock, s =>
    if clock ≠ 0 then activateLoop fuel bank_num row clock (activateBody bank_num row s)
    else some s

/-- Source function `activate(unsigned bank_num, unsigned row, unsigned clock)`,
with fuel for its loop. -/
def activate {σ : Type} (fuel : Nat) (bank_num row clock : Nat) (s : State σ) :
    Option (State σ) :=
  activateLoop fuel (bank_num % 2 ^ 32) (row % 2 ^ 32) (clock % 2 ^ 32) s

/-! ## `main` -/

/-- What a run of the loop of `main` leaves: the final state, the number of
iterations made, the values of `sim_time` at which an iteration started, and
the `clock` arguments passed to `activate`, in order. -/
structure MainRun (σ : Type) where
  final : State σ
  iterations : Nat
  startTimes : List Nat
  activateClocks : List Nat

/-- One iteration of the `while` loop of `main`; also returns the two `clock`
arguments it passed to `activate`.  The value drawn from the random
distribution selects among empty branches and is not modelled. -/
def mainBody {σ : Type} (fuel : Nat) (ev : Pins → σ → σ) (s : State σ) :
    Option (State σ × List Nat) :=
  let s := toggleClock ev 2 s
  let c1 := s.pins.clk_in
  match activate fuel 0 0 c1 s with
  | none => none
  | some s =>
    let s := toggleClock ev 2 s
    let c2 := s.pins.clk_in
    match activate fuel 1 0 c2 s with
    | none => none
    | some s => some (toggleClock ev 2 s, [c1, c2])

/-- The loop `while (sim_time < max_sim_time) { ... }` of `main`. -/
def mainLoop {σ : Type} (ev : Pins → σ → σ) : Nat → State σ → Option (MainRun σ)
  | 0, _ => none
  | fuel + 1, s =>
    if s.sim_time < max_sim_time then
      match mainBody (fuel + 1) ev s with
      | none => none
      | some (s2, cs) =>
        match mainLoop ev fuel s2 with
        | none => none
        | some r =>
          some { r with iterations := r.iterations + 1, startTimes := s.sim_time :: r.startTimes,
                        activateClocks := cs ++ r.activateClocks }
    else some { final := s, iterations := 0, startTimes := [], activateClocks := [] }

/-- Source function `main`, from the construction of the device to the exit of
the loop: `pins0` and `model0` are the ports and internals of the freshly
constructed device. -/
def main {σ : Type} (ev : Pins → σ → σ) (fuel : Nat) (pins0 : Pins) (model0 : σ) :
    Option (MainRun σ) :=
  let s : State σ := { pins := pins0, model := model0, sim_time := 0, events := [] }
  let s := toggleClock ev 2 s
  -- initialize
  let s := { s with pins := { s.pins with rst_N_in := 1 } }
  let s := { s with pins := { s.pins with clk_in := 0 } }
  let s := doEval ev s
  let s := doDump s
  mainLoop ev fuel s

/-! ## Observations on a state and on the record of calls -/

/-- The bank-select pins `(bg_in, ba_in)`. -/
def bankPins (p : Pins) : Nat × Nat := (p.bg_in, p.ba_in)

/-- Input ports an event carries. -/
def Event.pins : Event → Pins
  | Event.eval p => p
  | Event.dump _ p => p

/-- Timestamps of the trace records among the events, in order. -/
def dumpTimes (l : List Event) : List Nat :=
  l.filterMap (fun e => match e with
    | Event.dump t _ => some t
    | Event.eval _ => none)

/-- Number of device evaluations among the events. -/
def evalCount (l : List Event) : Nat :=
  l.countP (fun e => match e with
    | Event.eval _ => true
    | Event.dump _ _ => false)

/-- Values of the data pin `dqs` at the events, in order. -/
def dqsSeen (l : List Event) : List Nat := l.map (fun e => e.pins.dqs)

/-- The three calls of toggle number `i` (counted from 0) of a `toggleClock`
that starts with pins `p` at time `t`: two evaluations and then one trace
record, all with the clock pin flipped `i + 1` times, the record stamped with
the clock counter after `i + 1` increments. -/
def toggleRecord (p : Pins) (t : Nat) (i : Nat) : List Event :=
  [Event.eval { p with clk_in := flipClk^[i + 1] p.clk_in },
   Event.eval { p with clk_in := flipClk^[i + 1] p.clk_in },
   Event.dump ((t + 5 * (i + 1)) % 2 ^ W64) { p with clk_in := flipClk^[i + 1] p.clk_in }]

/-- The calls of a `toggleClock` of `n` toggles that starts with pins `p` at
time `t`: toggle 0, then toggle 1, and so on. -/
def toggleEvents (p : Pins) (t : Nat) (n : Nat) : List Event :=
  (List.range n).flatMap (toggleRecord p t)

/-- A call of one of the three command functions. -/
inductive Cmd where
  | precharge (bank_num : Nat)
  | write (pre : Bool) (col : Fin (2 ^ COL_BITS)) (bank_num : Nat) (data : Fin 8 → Nat)
  | read (pre : Bool) (col : Fin (2 ^ COL_BITS)) (bank_num : Nat)

/-- The bank number a command call is given. -/
def Cmd.bank : Cmd → Nat
  | Cmd.precharge b => b
  | Cmd.write _ _ b _ => b
  | Cmd.read _ _ b => b

/-- The state after one command call. -/
def runCmd {σ : Type} (ev : Pins → σ → σ) (c : Cmd) (s : State σ) : State σ :=
  match c with
  | Cmd.precharge b => precharge b s
  | Cmd.write pre col b d => write_command ev pre col b d s
  | Cmd.read pre col b => read_command pre col b s

/-- The state after a sequence of command calls, first call first. -/
def runCmds {σ : Type} (ev : Pins → σ → σ) : List Cmd → State σ → State σ
  | [], s => s
  | c :: cs, s => runCmds ev cs (runCmd ev c s)

/-- The bank the pins select: `bg_in` is bit 0 and `ba_in` bits 2..1 of the
bank number, the split the commands use. -/
def selectedBank (p : Pins) : Nat := p.bg_in ||| (p.ba_in <<< 1)

/-- Address word left by `write_command`. -/
def writeAddr (pre : Bool) (col : Fin (2 ^ COL_BITS)) : Nat :=
  2 ^ 16 + (if pre then 2 ^ 10 else 0) + col.val

/-- Address word left by `read_command`. -/
def readAddr (pre : Bool) (col : Fin (2 ^ COL_BITS)) : Nat :=
  2 ^ 16 + 2 ^ 14 + (if pre then 2 ^ 10 else 0) + col.val

/-- The bit pattern of a read/write address word: bit 16 set, bits 3..0 equal
to `col`, bit 10 equal to `pre`, bits 4..9 and 11..13 clear. -/
def RWBits (a : Nat) (pre : Bool) (col : Fin (2 ^ COL_BITS)) : Prop :=
  a.testBit 16 = true ∧ a % 2 ^ COL_BITS = col.val ∧ a.testBit 10 = pre ∧
  (∀ i, 4 ≤ i → i ≤ 9 → a.testBit i = false) ∧
  (∀ i, 11 ≤ i → i ≤ 13 → a.testBit i = false)

/-- The pins `write_command` holds while it drives word `j` of the payload:
bank pins or-ed in, chip select and `act_in` low, the write address without the
precharge bit, the word on `dqs`; the clock pin as on entry. -/
def writeBeat (col : Fin (2 ^ COL_BITS)) (bank_num : Nat) (d : Fin 8 → Nat) (p : Pins)
    (j : Fin 8) : Pins :=
  { p with
    bg_in := (p.bg_in ||| (bank_num % 2 ^ 8 &&& 1)) % 2 ^ W8
    ba_in := (p.ba_in ||| ((bank_num % 2 ^ 8 &&& 6) >>> 1)) % 2 ^ W8
    cs_N_in := 0
    act_in := 0
    addr_in := (1 <<< 16) ||| col.val
    dqs := d j % 2 ^ W64 }

/-- Index of the payload word on `dqs` during toggle `k` of `write_command`:
word 1 for toggles 0 and 1, word 3 for toggles 2 and 3, word 5 for toggles 4
and 5, word 7 for toggles 6 and 7. -/
def wordAt (k : Nat) : Fin 8 := ⟨(2 * (k / 2) + 1) % 8, Nat.mod_lt _ (by decide)⟩

/-- The three calls of toggle number `k` (counted from 0) of `write_command`
entered with pins `p` at time `t`: two evaluations and then one trace record,
all on the pins of `writeBeat` for word `wordAt k` with the clock pin flipped
`k + 1` times, the record stamped `(t + 5 * (k + 1)) mod 2^64`. -/
def writeRecord (col : Fin (2 ^ COL_BITS)) (bank_num : Nat) (d : Fin 8 → Nat) (p : Pins)
    (t : Nat) (k : Nat) : List Event :=
  [Event.eval { writeBeat col bank_num d p (wordAt k) with clk_in := flipClk^[k + 1] p.clk_in },
   Event.eval { writeBeat col bank_num d p (wordAt k) with clk_in := flipClk^[k + 1] p.clk_in },
   Event.dump ((t + 5 * (k + 1)) % 2 ^ W64)
     { writeBeat col bank_num d p (wordAt k) with clk_in := flipClk^[k + 1] p.clk_in }]

/-- The calls `write_command` makes, in order, when entered with pins `p` at
time `t`: toggles 0 to 7. -/
def writeEvents (col : Fin (2 ^ COL_BITS)) (bank_num : Nat) (d : Fin 8 → Nat) (p : Pins)
    (t : Nat) : List Event :=
  (List.range 8).flatMap (writeRecord col bank_num d p t)

/-! ## Concrete inputs used by the witnesses -/

/-- The pin state with every port at zero. -/
def zeroPins : Pins := ⟨0, 0, 0, 0, 0, 0, 0, 0, 0, 0⟩

/-- A device whose internal state counts its evaluations. -/
def countingDevice : Pins → Nat → Nat := fun _ m => m + 1

/-- A start state: all ports zero, `sim_time = 0` as `main` sets it, no call
recorded yet. -/
def initState : State Nat := ⟨zeroPins, 0, 0, []⟩

/-- The payload `1, 2, ..., 8`. -/
def payload18 : Fin 8 → Nat := fun i => i.val + 1

/-- The pins as a command to bank 1 leaves them when issued on `initState`. -/
def afterBank1 : State Nat := precharge 1 initState

/-- A state whose clock counter is ten ticks short of wrapping around. -/
def lateState : State Nat := ⟨zeroPins, 0, 2 ^ 64 - 10, []⟩

/-! ## Closed forms of what the commands leave on the pins -/

theorem write_command_addr {σ : Type} (ev : Pins → σ → σ) (pre : Bool)
    (col : Fin (2 ^ COL_BITS)) (bank_num : Nat) (d : Fin 8 → Nat) (s : State σ) :
    (write_command ev pre col bank_num d s).pins.addr_in = writeAddr pre col := by
  have h : ∀ (pre : Bool) (col : Fin (2 ^ COL_BITS)),
      (if pre then setBit32 10 (clearBit32 14 (clearBit32 15 (setBit32 16
          ((0 ||| (col.val &&& ((1 <<< COL_BITS) - 1))) % 2 ^ W32))))
        else clearBit32 10 (clearBit32 14 (clearBit32 15 (setBit32 16
          ((0 ||| (col.val &&& ((1 <<< COL_BITS) - 1))) % 2 ^ W32)))))
      = writeAddr pre col := by decide
  rw [← h]
  cases pre <;> rfl

theorem read_command_addr {σ : Type} (pre : Bool)
    (col : Fin (2 ^ COL_BITS)) (bank_num : Nat) (s : State σ) :
    (read_command pre col bank_num s).pins.addr_in = readAddr pre col := by
  have h : ∀ (pre : Bool) (col : Fin (2 ^ COL_BITS)),
      (if pre then setBit32 10 (setBit32 14 (clearBit32 15 (setBit32 16
          ((0 ||| (col.val &&& ((1 <<< COL_BITS) - 1))) % 2 ^ W32))))
        else clearBit32 10 (setBit32 14 (clearBit32 15 (setBit32 16
          ((0 ||| (col.val &&& ((1 <<< COL_BITS) - 1))) % 2 ^ W32)))))
      = readAddr pre col := by decide
  rw [← h]
  cases pre <;> rfl

theorem writeAddr_bits : ∀ (pre : Bool) (col : Fin (2 ^ COL_BITS)),
    (writeAddr pre col).testBit 16 = true ∧ (writeAddr pre col) % 2 ^ COL_BITS = col.val ∧
    (writeAddr pre col).testBit 10 = pre ∧
    (∀ i : Fin 14, 4 ≤ i.val → i.val ≠ 10 → (writeAddr pre col).testBit i.val = false) ∧
    (writeAddr pre col).testBit 15 = false ∧ (writeAddr pre col).testBit 14 = false := by
  decide

theorem readAddr_bits : ∀ (pre : Bool) (col : Fin (2 ^ COL_BITS)),
    (readAddr pre col).testBit 16 = true ∧ (readAddr pre col) % 2 ^ COL_BITS = col.val ∧
    (readAddr pre col).testBit 10 = pre ∧
    (∀ i : Fin 14, 4 ≤ i.val → i.val ≠ 10 → (readAddr pre col).testBit i.val = false) ∧
    (readAddr pre col).testBit 15 = false ∧ (readAddr pre col).testBit 14 = true := by
  decide

theorem rwBits_of (a : Nat) (pre : Bool) (col : Fin (2 ^ COL_BITS))
    (h : a.testBit 16 = true ∧ a % 2 ^ COL_BITS = col.val ∧ a.testBit 10 = pre ∧
      (∀ i : Fin 14, 4 ≤ i.val → i.val ≠ 10 → a.testBit i.val = false)) :
    RWBits a pre col := by
  obtain ⟨h1, h2, h3, h4⟩ := h
  refine ⟨h1, h2, h3, ?_, ?_⟩
  · intro i hi hj
    exact h4 ⟨i, by omega⟩ hi (by simp; omega)
  · intro i hi hj
    exact h4 ⟨i, by omega⟩ (by simp; omega) (by simp; omega)

theorem precharge_bank {σ : Type} (b : Nat) (s : State σ) :
    bankPins (precharge b s).pins =
      ((s.pins.bg_in ||| (b % 2 ^ 8 &&& 1)) % 2 ^ W8,
       (s.pins.ba_in ||| ((b % 2 ^ 8 &&& 6) >>> 1)) % 2 ^ W8) := rfl

theorem write_command_bank {σ : Type} (ev : Pins → σ → σ) (pre : Bool)
    (col : Fin (2 ^ COL_BITS)) (b : Nat) (d : Fin 8 → Nat) (s : State σ) :
    bankPins (write_command ev pre col b d s).pins =
      ((s.pins.bg_in ||| (b % 2 ^ 8 &&& 1)) % 2 ^ W8,
       (s.pins.ba_in ||| ((b % 2 ^ 8 &&& 6) >>> 1)) % 2 ^ W8) := by
  cases pre <;> rfl

theorem read_command_bank {σ : Type} (pre : Bool)
    (col : Fin (2 ^ COL_BITS)) (b : Nat) (s : State σ) :
    bankPins (read_command pre col b s).pins =
      ((s.pins.bg_in ||| (b % 2 ^ 8 &&& 1)) % 2 ^ W8,
       (s.pins.ba_in ||| ((b % 2 ^ 8 &&& 6) >>> 1)) % 2 ^ W8) := by
  cases pre <;> rfl

/-- The bank pins a command leaves when it starts from cleared bank pins. -/
theorem bank_from_zero (b : Nat) (hb : b < 8) :
    ((0 ||| (b % 2 ^ 8 &&& 1)) % 2 ^ W8, (0 ||| ((b % 2 ^ 8 &&& 6) >>> 1)) % 2 ^ W8)
      = (b % 2, b / 2) := by
  interval_cases b <;> decide

/-- Or-ing the same value into an 8-bit pin a second time changes nothing. -/
theorem or_mod_idem (x b : Nat) :
    ((x ||| b) % 2 ^ W8 ||| b) % 2 ^ W8 = (x ||| b) % 2 ^ W8 := by
  apply Nat.eq_of_testBit_eq
  intro i
  simp only [Nat.testBit_mod_two_pow, Nat.testBit_or]
  cases decide (i < W8) <;> cases x.testBit i <;> cases b.testBit i <;> rfl

theorem precharge_frameDqs {σ : Type} (b : Nat) (s : State σ) :
    frameDqs (precharge b s).pins =
      (1, 1, 2 ^ 15, (s.pins.bg_in ||| (b % 2 ^ 8 &&& 1)) % 2 ^ W8,
       (s.pins.ba_in ||| ((b % 2 ^ 8 &&& 6) >>> 1)) % 2 ^ W8, 0) := by
  have ha : clearBit32 14 (setBit32 15 (clearBit32 16 0)) = 2 ^ 15 := by decide
  rw [← ha]
  rfl

theorem write_command_frameDqs {σ : Type} (ev : Pins → σ → σ) (pre : Bool)
    (col : Fin (2 ^ COL_BITS)) (b : Nat) (d : Fin 8 → Nat) (s : State σ) :
    frameDqs (write_command ev pre col b d s).pins =
      (1, 0, writeAddr pre col, (s.pins.bg_in ||| (b % 2 ^ 8 &&& 1)) % 2 ^ W8,
       (s.pins.ba_in ||| ((b % 2 ^ 8 &&& 6) >>> 1)) % 2 ^ W8, 0) := by
  have h := write_command_addr ev pre col b d s
  have hb := write_command_bank ev pre col b d s
  simp only [bankPins, Prod.mk.injEq] at hb
  have h1 : (write_command ev pre col b d s).pins.cs_N_in = 1 := by cases pre <;> rfl
  have h2 : (write_command ev pre col b d s).pins.act_in = 0 := by cases pre <;> rfl
  have h3 : (write_command ev pre col b d s).pins.dqs = 0 := by cases pre <;> rfl
  simp only [frameDqs, h, hb.1, hb.2, h1, h2, h3]

theorem read_command_frameDqs {σ : Type} (pre : Bool)
    (col : Fin (2 ^ COL_BITS)) (b : Nat) (s : State σ) :
    frameDqs (read_command pre col b s).pins =
      (1, 0, readAddr pre col, (s.pins.bg_in ||| (b % 2 ^ 8 &&& 1)) % 2 ^ W8,
       (s.pins.ba_in ||| ((b % 2 ^ 8 &&& 6) >>> 1)) % 2 ^ W8, 0) := by
  have h := read_command_addr pre col b s
  have hb := read_command_bank pre col b s
  simp only [bankPins, Prod.mk.injEq] at hb
  have h1 : (read_command pre col b s).pins.cs_N_in = 1 := by cases pre <;> rfl
  have h2 : (read_command pre col b s).pins.act_in = 0 := by cases pre <;> rfl
  have h3 : (read_command pre col b s).pins.dqs = 0 := by cases pre <;> rfl
  simp only [frameDqs, h, hb.1, hb.2, h1, h2, h3]

/-! ## Lemmas on `toggleClock` -/

theorem flipClk_lt (c : Nat) : flipClk c < 2 ^ W8 :=
  Nat.mod_lt _ (by decide)

theorem flipClk_in_range (c : Nat) (h : c < 2 ^ W8) : flipClk c = c ^^^ 1 :=
  Nat.mod_eq_of_lt (Nat.xor_lt_two_pow h (by decide))

theorem xor_one_xor (c n : Nat) : (c ^^^ 1) ^^^ (n % 2) = c ^^^ ((n + 1) % 2) := by
  rw [Nat.xor_assoc]
  congr 1
  rcases Nat.mod_two_eq_zero_or_one n with h | h
  · have h1 : (n + 1) % 2 = 1 := by omega
    rw [h, h1]; rfl
  · have h1 : (n + 1) % 2 = 0 := by omega
    rw [h, h1]; rfl

/-- On an 8-bit clock value, `n` flips are an exclusive-or with `n mod 2`. -/
theorem flipClk_iterate (n : Nat) : ∀ c : Nat, c < 2 ^ W8 → flipClk^[n] c = c ^^^ (n % 2) := by
  induction n with
  | zero => intro c _; simp
  | succ n ih =>
    intro c h
    rw [Function.iterate_succ_apply, ih _ (flipClk_lt c), flipClk_in_range c h, xor_one_xor]

theorem add5_mod (t k : Nat) :
    ((t + 5) % 2 ^ W64 + 5 * k) % 2 ^ W64 = (t + 5 * (k + 1)) % 2 ^ W64 := by
  rw [Nat.add_mod, Nat.mod_mod, ← Nat.add_mod]
  congr 1
  omega

theorem toggleStep_pins {σ : Type} (ev : Pins → σ → σ) (s : State σ) :
    (toggleStep ev s).pins = { s.pins with clk_in := flipClk s.pins.clk_in } := rfl

theorem toggleStep_sim_time {σ : Type} (ev : Pins → σ → σ) (s : State σ) :
    (toggleStep ev s).sim_time = (s.sim_time + 5) % 2 ^ W64 := rfl

theorem toggleRecord_step {σ : Type} (ev : Pins → σ → σ) (s : State σ) (i : Nat) :
    toggleRecord (toggleStep ev s).pins (toggleStep ev s).sim_time i =
      toggleRecord s.pins s.sim_time (i + 1) := by
  rw [toggleStep_pins ev s, toggleStep_sim_time]
  simp only [toggleRecord, add5_mod, Function.iterate_succ_apply]

theorem toggleStep_events {σ : Type} (ev : Pins → σ → σ) (s : State σ) :
    (toggleStep ev s).events = s.events ++ toggleRecord s.pins s.sim_time 0 := by
  show s.events ++ [_] ++ [_] ++ [_] = _
  rw [List.append_assoc, List.append_assoc]
  rfl

theorem toggleLoop_events {σ : Type} (ev : Pins → σ → σ) (n : Nat) :
    ∀ s : State σ,
      (toggleLoop ev n s).events = s.events ++ toggleEvents s.pins s.sim_time n := by
  induction n with
  | zero => intro s; simp [toggleLoop, toggleEvents]
  | succ n ih =>
    intro s
    have hf : toggleRecord (toggleStep ev s).pins (toggleStep ev s).sim_time =
        fun i => toggleRecord s.pins s.sim_time (i + 1) :=
      funext (toggleRecord_step ev s)
    rw [toggleLoop, ih, toggleStep_events ev s, toggleEvents, toggleEvents, hf,
      List.range_succ_eq_map, List.flatMap_cons, List.flatMap_map, List.append_assoc]

theorem toggleLoop_sim_time {σ : Type} (ev : Pins → σ → σ) (n : Nat) :
    ∀ s : State σ, s.sim_time < 2 ^ W64 →
      (toggleLoop ev n s).sim_time = (s.sim_time + 5 * n) % 2 ^ W64 := by
  induction n with
  | zero => intro s h; exact (Nat.mod_eq_of_lt h).symm
  | succ n ih =>
    intro s _
    rw [toggleLoop, ih _ (Nat.mod_lt _ (by decide)), toggleStep_sim_time, add5_mod]

theorem toggleLoop_succ_sim_time {σ : Type} (ev : Pins → σ → σ) (n : Nat) (s : State σ) :
    (toggleLoop ev (n + 1) s).sim_time = (s.sim_time + 5 * (n + 1)) % 2 ^ W64 := by
  rw [toggleLoop, toggleLoop_sim_time ev n _ (Nat.mod_lt _ (by decide)), toggleStep_sim_time,
    add5_mod]

theorem toggleLoop_pins {σ : Type} (ev : Pins → σ → σ) (n : Nat) :
    ∀ s : State σ,
      (toggleLoop ev n s).pins = { s.pins with clk_in := flipClk^[n] s.pins.clk_in } := by
  induction n with
  | zero => intro s; rfl
  | succ n ih =>
    intro s
    rw [toggleLoop, ih, toggleStep_pins ev s]
    rfl

theorem toggleClock_natCast {σ : Type} (ev : Pins → σ → σ) (n : Nat) (s : State σ) :
    toggleClock ev (n : Int) s = toggleLoop ev n s := by
  simp [toggleClock]

theorem toggleClock_nonpos {σ : Type} (ev : Pins → σ → σ) (m : Int) (hm : m ≤ 0)
    (s : State σ) : toggleClock ev m s = s := by
  have h : m.toNat = 0 := by omega
  simp [toggleClock, h, toggleLoop]

theorem dumpTimes_flatMap (p : Pins) (t : Nat) (l : List Nat) :
    dumpTimes (l.flatMap (toggleRecord p t)) =
      l.map (fun i => (t + 5 * (i + 1)) % 2 ^ W64) := by
  induction l with
  | nil => rfl
  | cons i l ih =>
    rw [List.flatMap_cons, dumpTimes, List.filterMap_append]
    rw [dumpTimes] at ih
    rw [ih]
    rfl

theorem evalCount_flatMap (p : Pins) (t : Nat) (l : List Nat) :
    evalCount (l.flatMap (toggleRecord p t)) = 2 * l.length := by
  induction l with
  | nil => rfl
  | cons i l ih =>
    rw [List.flatMap_cons, evalCount, List.countP_append]
    rw [evalCount] at ih
    rw [ih, List.length_cons]
    have : List.countP (fun e => match e with
        | Event.eval _ => true
        | Event.dump _ _ => false) (toggleRecord p t i) = 2 := rfl
    rw [this]
    omega

theorem stamps_no_wrap (t n : Nat) (h : t + 5 * n < 2 ^ W64) :
    (List.range n).map (fun i => (t + 5 * (i + 1)) % 2 ^ W64) =
      (List.range n).map (fun i => t + 5 * (i + 1)) := by
  apply List.map_congr_left
  intro i hi
  have hi2 : i < n := List.mem_range.mp hi
  exact Nat.mod_eq_of_lt (by omega)

theorem stamps_increasing (t n : Nat) :
    List.Pairwise (fun a b => a < b) ((List.range n).map (fun i => t + 5 * (i + 1))) := by
  rw [List.pairwise_map]
  exact (List.pairwise_lt_range n).imp (by intro a b hab; omega)

/-! ## Lemmas on the data phase of `write_command` -/

theorem tc2_events {σ : Type} (ev : Pins → σ → σ) (s : State σ) :
    (toggleClock ev 2 s).events = s.events ++ toggleEvents s.pins s.sim_time 2 :=
  toggleLoop_events ev 2 s

theorem tc2_pins {σ : Type} (ev : Pins → σ → σ) (s : State σ) :
    (toggleClock ev 2 s).pins = { s.pins with clk_in := flipClk^[2] s.pins.clk_in } :=
  toggleLoop_pins ev 2 s

theorem tc2_sim_time {σ : Type} (ev : Pins → σ → σ) (s : State σ) :
    (toggleClock ev 2 s).sim_time = (s.sim_time + 10) % 2 ^ W64 :=
  toggleLoop_succ_sim_time ev 1 s

theorem setDqs_events {σ : Type} (w : Nat) (s : State σ) : (setDqs w s).events = s.events := rfl

theorem setDqs_sim_time {σ : Type} (w : Nat) (s : State σ) :
    (setDqs w s).sim_time = s.sim_time := rfl

theorem setDqs_pins {σ : Type} (w : Nat) (s : State σ) :
    (setDqs w s).pins = { s.pins with dqs := w % 2 ^ W64 } := rfl

theorem write_command_events {σ : Type} (ev : Pins → σ → σ) (pre : Bool)
    (col : Fin (2 ^ COL_BITS)) (b : Nat) (d : Fin 8 → Nat) (s : State σ) :
    (write_command ev pre col b d s).events =
      s.events ++ writeEvents col b d s.pins s.sim_time := by
  have hA : ∀ c : Fin (2 ^ COL_BITS),
      clearBit32 14 (clearBit32 15 (setBit32 16
        ((0 ||| (c.val &&& ((1 <<< COL_BITS) - 1))) % 2 ^ W32))) = (1 <<< 16) ||| c.val := by
    decide
  have hr8 : List.range 8 = [0, 1, 2, 3, 4, 5, 6, 7] := rfl
  have hr2 : List.range 2 = [0, 1] := rfl
  have hw : wordAt 0 = 1 ∧ wordAt 1 = 1 ∧ wordAt 2 = 3 ∧ wordAt 3 = 3 ∧ wordAt 4 = 5 ∧
      wordAt 5 = 5 ∧ wordAt 6 = 7 ∧ wordAt 7 = 7 := by decide
  have hi : ∀ c, flipClk^[2] c = flipClk (flipClk c) := fun _ => rfl
  simp only [write_command, tc2_events, tc2_pins, tc2_sim_time, setDqs_events, setDqs_pins,
    setDqs_sim_time, List.append_assoc, hA]
  congr 1
  simp only [toggleEvents, writeEvents, hr8, hr2, List.flatMap_cons, List.flatMap_nil,
    toggleRecord, writeRecord, writeBeat, hw.1, hw.2.1, hw.2.2.1, hw.2.2.2.1, hw.2.2.2.2.1,
    hw.2.2.2.2.2.1, hw.2.2.2.2.2.2.1, hw.2.2.2.2.2.2.2, Nat.mod_add_mod, Nat.add_assoc,
    Function.iterate_succ_apply, Function.iterate_zero_apply, hi,
    List.cons_append, List.nil_append, List.append_nil, Nat.reduceAdd, Nat.reduceMul]

theorem write_command_sim_time {σ : Type} (ev : Pins → σ → σ) (pre : Bool)
    (col : Fin (2 ^ COL_BITS)) (b : Nat) (d : Fin 8 → Nat) (s : State σ) :
    (write_command ev pre col b d s).sim_time = (s.sim_time + 40) % 2 ^ W64 := by
  simp only [write_command, tc2_sim_time, setDqs_sim_time, Nat.mod_add_mod, Nat.add_assoc,
    Nat.reduceAdd]

theorem writeRecord_frame (col : Fin (2 ^ COL_BITS)) (b : Nat) (d : Fin 8 → Nat) (p : Pins)
    (t k : Nat) :
    ∀ e ∈ writeRecord col b d p t k,
      e.pins.cs_N_in = 0 ∧ e.pins.act_in = 0 ∧ e.pins.addr_in = (1 <<< 16) ||| col.val ∧
      e.pins.addr_in.testBit 10 = false ∧ e.pins.dqs = d (wordAt k) % 2 ^ W64 := by
  have hb : ∀ c : Fin (2 ^ COL_BITS), ((1 <<< 16) ||| c.val).testBit 10 = false := by decide
  intro e he
  simp only [writeRecord, List.mem_cons, List.mem_singleton, List.not_mem_nil, or_false] at he
  rcases he with h | h | h <;> subst h <;> exact ⟨rfl, rfl, rfl, hb col, rfl⟩

theorem writeEvents_frame (col : Fin (2 ^ COL_BITS)) (b : Nat) (d : Fin 8 → Nat) (p : Pins)
    (t : Nat) :
    ∀ e ∈ writeEvents col b d p t,
      e.pins.cs_N_in = 0 ∧ e.pins.act_in = 0 ∧ e.pins.addr_in = (1 <<< 16) ||| col.val ∧
      e.pins.addr_in.testBit 10 = false := by
  intro e he
  obtain ⟨k, -, hk⟩ := List.mem_flatMap.mp he
  obtain ⟨h1, h2, h3, h4, -⟩ := writeRecord_frame col b d p t k e hk
  exact ⟨h1, h2, h3, h4⟩

theorem writeEvents_dumpTimes (col : Fin (2 ^ COL_BITS)) (b : Nat) (d : Fin 8 → Nat)
    (p : Pins) (t : Nat) :
    dumpTimes (writeEvents col b d p t) =
      (List.range 8).map (fun k => (t + 5 * (k + 1)) % 2 ^ W64) := rfl

theorem writeEvents_evalCount (col : Fin (2 ^ COL_BITS)) (b : Nat) (d : Fin 8 → Nat)
    (p : Pins) (t : Nat) : evalCount (writeEvents col b d p t) = 16 := rfl

theorem writeEvents_dqsSeen (col : Fin (2 ^ COL_BITS)) (b : Nat) (d : Fin 8 → Nat)
    (p : Pins) (t : Nat) :
    dqsSeen (writeEvents col b d p t) =
      List.replicate 6 (d 1 % 2 ^ W64) ++ List.replicate 6 (d 3 % 2 ^ W64) ++
      List.replicate 6 (d 5 % 2 ^ W64) ++ List.replicate 6 (d 7 % 2 ^ W64) := rfl

/-! ## Lemmas on `activate` -/

theorem activateLoop_nonzero {σ : Type} (bank_num row clock : Nat) (h : clock ≠ 0) :
    ∀ (fuel : Nat) (s : State σ), activateLoop fuel bank_num row clock s = none := by
  intro fuel
  induction fuel with
  | zero => intro s; rfl
  | succ n ih =>
    intro s
    rw [activateLoop, if_pos h]
    exact ih _

theorem activateLoop_zero {σ : Type} (fuel bank_num row : Nat) (s : State σ) :
    activateLoop (fuel + 1) bank_num row 0 s = some s := by
  simp [activateLoop]

theorem activateLoop_some {σ : Type} (fuel bank_num row clock : Nat) (s r : State σ)
    (h : activateLoop fuel bank_num row clock s = some r) : clock = 0 ∧ r = s := by
  by_cases hc : clock = 0
  · subst hc
    cases fuel with
    | zero => simp [activateLoop] at h
    | succ n =>
      rw [activateLoop_zero] at h
      exact ⟨rfl, (Option.some.inj h).symm⟩
  · rw [activateLoop_nonzero bank_num row clock hc] at h
    cases h

/-! ## Lemmas on the loop of `main` -/

theorem tc2_clk_low {σ : Type} (ev : Pins → σ → σ) (s : State σ) (h : s.pins.clk_in = 0) :
    (toggleClock ev 2 s).pins.clk_in = 0 := by
  rw [tc2_pins]
  show flipClk^[2] s.pins.clk_in = 0
  rw [h]
  decide

theorem activate_low {σ : Type} (fuel bank_num row : Nat) (s : State σ) :
    activate (fuel + 1) bank_num row 0 s = some s :=
  activateLoop_zero fuel _ _ s

/-- With the clock pin low on entry, one iteration of the loop of `main` is
three calls of `toggleClock()`; both calls of `activate` get `clock = 0`. -/
theorem mainBody_low {σ : Type} (fuel : Nat) (ev : Pins → σ → σ) (s : State σ)
    (h : s.pins.clk_in = 0) :
    mainBody (fuel + 1) ev s =
      some (toggleClock ev 2 (toggleClock ev 2 (toggleClock ev 2 s)), [0, 0]) := by
  have h1 := tc2_clk_low ev s h
  have h2 := tc2_clk_low ev _ h1
  simp only [mainBody, h1, h2, activate_low]

theorem three_toggles_sim_time {σ : Type} (ev : Pins → σ → σ) (s : State σ) :
    (toggleClock ev 2 (toggleClock ev 2 (toggleClock ev 2 s))).sim_time =
      (s.sim_time + 30) % 2 ^ W64 := by
  simp only [tc2_sim_time, Nat.mod_add_mod, Nat.add_assoc, Nat.reduceAdd]

theorem startTimes_step (t j : Nat) :
    (List.range (j + 1)).map (fun i => t + 30 * i) =
      t :: (List.range j).map (fun i => t + 30 + 30 * i) := by
  rw [List.range_succ_eq_map, List.map_cons, List.map_map]
  refine congrArg₂ List.cons rfl ?_
  apply List.map_congr_left
  intro i _
  show t + 30 * (i + 1) = t + 30 + 30 * i
  omega

theorem replicate_step (j : Nat) :
    List.replicate (2 * (j + 1)) 0 = [0, 0] ++ List.replicate (2 * j) 0 := by
  have h : 2 * (j + 1) = 2 * j + 1 + 1 := by omega
  rw [h, List.replicate_succ, List.replicate_succ]
  rfl

/-- The loop of `main` entered `j` iterations before `sim_time` reaches 6010,
with the clock pin low. -/
theorem mainLoop_run {σ : Type} (ev : Pins → σ → σ) (k : Nat) (j : Nat) :
    ∀ s : State σ, s.pins.clk_in = 0 → s.sim_time + 30 * j = 6010 → j ≤ 200 →
      ∃ r, mainLoop ev (k + j + 1) s = some r ∧ r.iterations = j ∧
        r.final.sim_time = 6010 ∧ r.final.pins.clk_in = 0 ∧
        r.startTimes = (List.range j).map (fun i => s.sim_time + 30 * i) ∧
        r.activateClocks = List.replicate (2 * j) 0 := by
  induction j with
  | zero =>
    intro s hc ht _
    have hge : ¬ s.sim_time < max_sim_time := by
      have : max_sim_time = 6000 := rfl
      omega
    refine ⟨{ final := s, iterations := 0, startTimes := [], activateClocks := [] }, ?_,
      rfl, by simpa using ht, hc, rfl, rfl⟩
    rw [mainLoop, if_neg hge]
  | succ j ih =>
    intro s hc ht hj
    have hlt : s.sim_time < max_sim_time := by
      have : max_sim_time = 6000 := rfl
      omega
    have ht3 : (toggleClock ev 2 (toggleClock ev 2 (toggleClock ev 2 s))).sim_time =
        s.sim_time + 30 := by
      rw [three_toggles_sim_time]
      apply Nat.mod_eq_of_lt
      have : (2 : Nat) ^ W64 = 18446744073709551616 := by decide
      omega
    have hc3 := tc2_clk_low ev _ (tc2_clk_low ev _ (tc2_clk_low ev s hc))
    obtain ⟨r, hr, hi, hf, hfc, hst, hac⟩ := ih _ hc3 (by rw [ht3]; omega) (by omega)
    refine ⟨{ r with iterations := r.iterations + 1, startTimes := s.sim_time :: r.startTimes,
                     activateClocks := [0, 0] ++ r.activateClocks }, ?_, ?_, hf, hfc, ?_, ?_⟩
    · show mainLoop ev (k + j + 1 + 1) s = _
      rw [mainLoop, if_pos hlt, mainBody_low _ ev s hc]
      simp only [hr]
    · show r.iterations + 1 = j + 1
      rw [hi]
    · show s.sim_time :: r.startTimes = _
      rw [hst, ht3, startTimes_step]
    · show [0, 0] ++ r.activateClocks = _
      rw [hac, replicate_step]

/-! ## Lemmas on the bank pins over command sequences -/

theorem runCmd_bank {σ : Type} (ev : Pins → σ → σ) (c : Cmd) (s : State σ) :
    bankPins (runCmd ev c s).pins =
      ((s.pins.bg_in ||| (c.bank % 2 ^ 8 &&& 1)) % 2 ^ W8,
       (s.pins.ba_in ||| ((c.bank % 2 ^ 8 &&& 6) >>> 1)) % 2 ^ W8) := by
  cases c with
  | precharge b => exact precharge_bank b s
  | write pre col b d => exact write_command_bank ev pre col b d s
  | read pre col b => exact read_command_bank pre col b s

/-- Masking an 8-bit conversion of `b` with a value below `2^8` masks `b`. -/
theorem mod_and_small (b k : Nat) (hk : k < 2 ^ 8) : b % 2 ^ 8 &&& k = b &&& k := by
  apply Nat.eq_of_testBit_eq
  intro i
  rw [Nat.testBit_and, Nat.testBit_and, Nat.testBit_mod_two_pow]
  by_cases hi : i < 8
  · simp [hi]
  · have h2 : (0 : Nat) < 2 := by decide
    have hk2 : k < 2 ^ i :=
      Nat.lt_of_lt_of_le hk (Nat.pow_le_pow_right h2 (by omega))
    rw [Nat.testBit_lt_two_pow hk2, Bool.and_false, Bool.and_false]

theorem bgBits_lt (b : Nat) : b &&& 1 < 2 ^ W8 :=
  Nat.and_lt_two_pow b (by decide)

theorem baBits_lt (b : Nat) : (b &&& 6) >>> 1 < 2 ^ W8 := by
  have h : b &&& 6 ≤ 6 := Nat.and_le_right
  have h2 : (b &&& 6) >>> 1 = (b &&& 6) / 2 := by
    rw [Nat.shiftRight_eq_div_pow]
  have h3 : (2 : Nat) ^ W8 = 256 := by decide
  rw [h2, h3]
  omega

/-- One command call on pins that fit their 8-bit ports: the bank pins are
or-ed with the bank bits. -/
theorem runCmd_bank_or {σ : Type} (ev : Pins → σ → σ) (c : Cmd) (s : State σ)
    (hbg : s.pins.bg_in < 2 ^ W8) (hba : s.pins.ba_in < 2 ^ W8) :
    (runCmd ev c s).pins.bg_in = s.pins.bg_in ||| (c.bank &&& 1) ∧
    (runCmd ev c s).pins.ba_in = s.pins.ba_in ||| ((c.bank &&& 6) >>> 1) := by
  have h := runCmd_bank ev c s
  simp only [bankPins, Prod.mk.injEq] at h
  rw [mod_and_small _ 1 (by decide), mod_and_small _ 6 (by decide)] at h
  rw [h.1, h.2, Nat.mod_eq_of_lt (Nat.or_lt_two_pow hbg (bgBits_lt _)),
    Nat.mod_eq_of_lt (Nat.or_lt_two_pow hba (baBits_lt _))]
  exact ⟨rfl, rfl⟩

theorem runCmd_bank_lt {σ : Type} (ev : Pins → σ → σ) (c : Cmd) (s : State σ) :
    (runCmd ev c s).pins.bg_in < 2 ^ W8 ∧ (runCmd ev c s).pins.ba_in < 2 ^ W8 := by
  have h := runCmd_bank ev c s
  simp only [bankPins, Prod.mk.injEq] at h
  rw [h.1, h.2]
  exact ⟨Nat.mod_lt _ (by decide), Nat.mod_lt _ (by decide)⟩

/-- A bit set in a bank pin stays set over any sequence of command calls. -/
theorem runCmds_sticky {σ : Type} (ev : Pins → σ → σ) (cs : List Cmd) :
    ∀ s : State σ, s.pins.bg_in < 2 ^ W8 → s.pins.ba_in < 2 ^ W8 →
      (∀ i, s.pins.bg_in.testBit i = true → (runCmds ev cs s).pins.bg_in.testBit i = true) ∧
      (∀ i, s.pins.ba_in.testBit i = true → (runCmds ev cs s).pins.ba_in.testBit i = true) := by
  induction cs with
  | nil => intro s _ _; exact ⟨fun _ h => h, fun _ h => h⟩
  | cons c cs ih =>
    intro s hbg hba
    obtain ⟨h1, h2⟩ := runCmd_bank_or ev c s hbg hba
    obtain ⟨l1, l2⟩ := runCmd_bank_lt ev c s
    obtain ⟨i1, i2⟩ := ih (runCmd ev c s) l1 l2
    refine ⟨fun i hi => i1 i ?_, fun i hi => i2 i ?_⟩
    · rw [h1, Nat.testBit_or, hi]; rfl
    · rw [h2, Nat.testBit_or, hi]; rfl

/-- The bank selected after one command call holds every bit of the bank
selected before and every bit of the bank number of the call. -/
theorem selectedBank_step {σ : Type} (ev : Pins → σ → σ) (c : Cmd) (s : State σ)
    (hbg : s.pins.bg_in < 2 ^ W8) (hba : s.pins.ba_in < 2 ^ W8) (i : Nat) :
    ((selectedBank s.pins).testBit i = true →
      (selectedBank (runCmd ev c s).pins).testBit i = true) ∧
    (c.bank < 8 → c.bank.testBit i = true →
      (selectedBank (runCmd ev c s).pins).testBit i = true) := by
  obtain ⟨h1, h2⟩ := runCmd_bank_or ev c s hbg hba
  simp only [selectedBank, h1, h2, Nat.testBit_or, Nat.testBit_shiftLeft, Nat.testBit_and,
    Nat.testBit_shiftRight]
  constructor
  · intro h
    simp only [Bool.or_eq_true, Bool.and_eq_true, decide_eq_true_eq] at h ⊢
    rcases h with h | h
    · exact Or.inl (Or.inl h)
    · exact Or.inr ⟨h.1, Or.inl h.2⟩
  · intro hb hi
    have hi3 : i < 3 := by
      by_contra hge
      have hlt : c.bank < 2 ^ i :=
        Nat.lt_of_lt_of_le hb (Nat.pow_le_pow_right (by decide : 0 < 2) (by omega : 3 ≤ i))
      rw [Nat.testBit_lt_two_pow hlt] at hi
      cases hi
    interval_cases i
    · simp [hi]
    · simp [hi]
      right; right; decide
    · simp [hi]
      right; right; decide

/-- Two command calls from cleared bank pins select the or of the two bank
numbers. -/
theorem two_from_zero : ∀ b1 b2 : Fin 8,
    (((0 ||| (b1.val % 2 ^ 8 &&& 1)) % 2 ^ W8 ||| (b2.val % 2 ^ 8 &&& 1)) % 2 ^ W8) |||
      ((((0 ||| ((b1.val % 2 ^ 8 &&& 6) >>> 1)) % 2 ^ W8 |||
        ((b2.val % 2 ^ 8 &&& 6) >>> 1)) % 2 ^ W8) <<< 1) = b1.val ||| b2.val := by
  decide

/-! ## Claims -/

/-- C1: for every `pre`, `col`, `bank_num`, payload and prior state, both
`write_command` and `read_command` return with bit 16 of `addr_in` set, bits
3..0 equal to `col`, bit 10 equal to `pre`, and bits 4..9 and 11..13 zero. -/
theorem C1_read_write_address_bits {σ : Type} (ev : Pins → σ → σ) (pre : Bool)
    (col : Fin (2 ^ COL_BITS)) (bank_num : Nat) (d : Fin 8 → Nat) (s t : State σ) :
    RWBits (write_command ev pre col bank_num d s).pins.addr_in pre col ∧
    RWBits (read_command pre col bank_num t).pins.addr_in pre col := by
  rw [write_command_addr, read_command_addr]
  obtain ⟨w1, w2, w3, w4, -, -⟩ := writeAddr_bits pre col
  obtain ⟨r1, r2, r3, r4, -, -⟩ := readAddr_bits pre col
  exact ⟨rwBits_of _ _ _ ⟨w1, w2, w3, w4⟩, rwBits_of _ _ _ ⟨r1, r2, r3, r4⟩⟩

/-- C2 (as stated) fails: `read_command` returns with bit 15 of `addr_in`
cleared, here for `pre = false`, `col = 0`, bank 0 on the start state. -/
theorem C2_counterexample :
    ¬ ((read_command false 0 0 initState).pins.addr_in.testBit 15 = true ∧
       (write_command countingDevice false 0 0 payload18 initState).pins.addr_in.testBit 15
         = false) := by
  decide

/-- C2 (amended): bit 14 of `addr_in` discriminates read from write.  For every
`pre`, `col`, `bank_num`, payload and prior state, `read_command` returns with
bit 14 set and `write_command` with bit 14 cleared; bit 15 is cleared by both. -/
theorem C2_read_write_discriminator {σ : Type} (ev : Pins → σ → σ) (pre : Bool)
    (col : Fin (2 ^ COL_BITS)) (bank_num : Nat) (d : Fin 8 → Nat) (s t : State σ) :
    (read_command pre col bank_num t).pins.addr_in.testBit 14 = true ∧
    (write_command ev pre col bank_num d s).pins.addr_in.testBit 14 = false ∧
    (read_command pre col bank_num t).pins.addr_in.testBit 15 = false ∧
    (write_command ev pre col bank_num d s).pins.addr_in.testBit 15 = false := by
  rw [write_command_addr, read_command_addr]
  obtain ⟨-, -, -, -, w15, w14⟩ := writeAddr_bits pre col
  obtain ⟨-, -, -, -, r15, r14⟩ := readAddr_bits pre col
  exact ⟨r14, w14, r15, w15⟩

/-- C3: for every `bank_num` and prior state, `precharge` returns with
`addr_in` exactly `1 << 15` (bit 16 clear, bit 15 set, bit 14 clear, every
other bit clear), `act_in = 1`, `cs_N_in = 1` and `dqs = 0`. -/
theorem C3_precharge_frame {σ : Type} (bank_num : Nat) (s : State σ) :
    (precharge bank_num s).pins.addr_in = 1 <<< 15 ∧
    (precharge bank_num s).pins.addr_in.testBit 16 = false ∧
    (precharge bank_num s).pins.addr_in.testBit 15 = true ∧
    (precharge bank_num s).pins.addr_in.testBit 14 = false ∧
    (∀ i, i ≠ 15 → (precharge bank_num s).pins.addr_in.testBit i = false) ∧
    (precharge bank_num s).pins.act_in = 1 ∧
    (precharge bank_num s).pins.cs_N_in = 1 ∧
    (precharge bank_num s).pins.dqs = 0 := by
  have ha : (precharge bank_num s).pins.addr_in = 2 ^ 15 := by
    show clearBit32 14 (setBit32 15 (clearBit32 16 0)) = 2 ^ 15
    decide
  refine ⟨by rw [ha]; decide, by rw [ha]; decide, by rw [ha]; decide, by rw [ha]; decide,
    ?_, rfl, rfl, rfl⟩
  intro i hi
  rw [ha, Nat.testBit_two_pow]
  simpa using fun h => hi h.symm

/-- C3 witness: bit 17 of the address word `precharge` leaves is clear. -/
theorem C3_precharge_frame_witness :
    17 ≠ 15 ∧ (precharge 3 initState).pins.addr_in.testBit 17 = false :=
  ⟨by decide, (C3_precharge_frame 3 initState).2.2.2.2.1 17 (by decide)⟩

/-- C4 (failing input): the frame is not a function of the arguments alone.
With identical arguments (bank 0), each command leaves `bg_in = 0` when issued
on the start state and `bg_in = 1` when issued after a command to bank 1. -/
theorem C4_frame_depends_on_prior_pins :
    frame (precharge 0 initState).pins ≠ frame (precharge 0 afterBank1).pins ∧
    frame (write_command countingDevice false 0 0 payload18 initState).pins ≠
      frame (write_command countingDevice false 0 0 payload18 afterBank1).pins ∧
    frame (read_command false 0 0 initState).pins ≠
      frame (read_command false 0 0 afterBank1).pins ∧
    (precharge 0 initState).pins.bg_in = 0 ∧ (precharge 0 afterBank1).pins.bg_in = 1 := by
  decide

/-- C5: starting from cleared bank pins (`bg_in = 0`, `ba_in = 0`) and for every
bank number below 8, each of `precharge`, `write_command` and `read_command`
returns with `bg_in = bank_num mod 2` (one bit) and `ba_in = bank_num div 2`
(two bits), and two different bank numbers never give the same pair of pins. -/
theorem C5_bank_split {σ : Type} (ev : Pins → σ → σ) (pre : Bool)
    (col : Fin (2 ^ COL_BITS)) (d : Fin 8 → Nat) (s t : State σ) (b b2 : Nat)
    (hs : s.pins.bg_in = 0 ∧ s.pins.ba_in = 0) (ht : t.pins.bg_in = 0 ∧ t.pins.ba_in = 0)
    (hb : b < 8) (hb2 : b2 < 8) :
    bankPins (precharge b s).pins = (b % 2, b / 2) ∧
    bankPins (write_command ev pre col b d s).pins = (b % 2, b / 2) ∧
    bankPins (read_command pre col b s).pins = (b % 2, b / 2) ∧
    b % 2 < 2 ^ 1 ∧ b / 2 < 2 ^ 2 ∧
    (b ≠ b2 →
      bankPins (precharge b s).pins ≠ bankPins (precharge b2 t).pins ∧
      bankPins (write_command ev pre col b d s).pins ≠
        bankPins (write_command ev pre col b2 d t).pins ∧
      bankPins (read_command pre col b s).pins ≠ bankPins (read_command pre col b2 t).pins) := by
  simp only [precharge_bank, write_command_bank, read_command_bank, hs.1, hs.2, ht.1, ht.2,
    bank_from_zero b hb, bank_from_zero b2 hb2]
  refine ⟨trivial, trivial, trivial, by omega, by omega, ?_⟩
  intro hne
  have key : (b % 2, b / 2) ≠ (b2 % 2, b2 / 2) := by
    intro h
    have h1 := congrArg Prod.fst h
    have h2 := congrArg Prod.snd h
    simp only at h1 h2
    omega
  exact ⟨key, key, key⟩

/-- C5 witness: `dut_reset` on the start state leaves cleared bank pins; banks
5 and 6. -/
theorem C5_bank_split_witness :
    ((dut_reset initState).pins.bg_in = 0 ∧ (dut_reset initState).pins.ba_in = 0) ∧
    5 < 8 ∧ 6 < 8 ∧ 5 ≠ 6 ∧
    bankPins (precharge 5 (dut_reset initState)).pins = (1, 2) ∧
    bankPins (precharge 5 (dut_reset initState)).pins ≠
      bankPins (precharge 6 (dut_reset initState)).pins := by
  have h := C5_bank_split countingDevice true 3 payload18 (dut_reset initState)
    (dut_reset initState) 5 6 (by decide) (by decide) (by decide) (by decide)
  exact ⟨by decide, by decide, by decide, by decide, h.1, (h.2.2.2.2.2 (by decide)).1⟩

/-- C6: for each of `precharge`, `write_command` and `read_command`, for every
argument tuple and every prior state, issuing the command twice in a row with
identical arguments leaves the same pins `(cs_N_in, act_in, addr_in, bg_in,
ba_in, dqs)` as issuing it once. -/
theorem C6_encoding_idempotent {σ : Type} (ev : Pins → σ → σ) (pre : Bool)
    (col : Fin (2 ^ COL_BITS)) (b : Nat) (d : Fin 8 → Nat) (s : State σ) :
    frameDqs (precharge b (precharge b s)).pins = frameDqs (precharge b s).pins ∧
    frameDqs (write_command ev pre col b d (write_command ev pre col b d s)).pins =
      frameDqs (write_command ev pre col b d s).pins ∧
    frameDqs (read_command pre col b (read_command pre col b s)).pins =
      frameDqs (read_command pre col b s).pins := by
  have hp := precharge_frameDqs b s
  have hw := write_command_frameDqs ev pre col b d s
  have hr := read_command_frameDqs pre col b s
  refine ⟨?_, ?_, ?_⟩
  · rw [precharge_frameDqs b (precharge b s), hp]
    simp only [frameDqs, Prod.mk.injEq] at hp
    rw [hp.2.2.2.1, hp.2.2.2.2.1, or_mod_idem, or_mod_idem]
  · rw [write_command_frameDqs ev pre col b d (write_command ev pre col b d s), hw]
    simp only [frameDqs, Prod.mk.injEq] at hw
    rw [hw.2.2.2.1, hw.2.2.2.2.1, or_mod_idem, or_mod_idem]
  · rw [read_command_frameDqs pre col b (read_command pre col b s), hr]
    simp only [frameDqs, Prod.mk.injEq] at hr
    rw [hr.2.2.2.1, hr.2.2.2.2.1, or_mod_idem, or_mod_idem]

/-- C7 (as stated) fails: from a clock counter ten ticks short of `2^64` the
default `toggleClock()` leaves `sim_time = 0`, not `sim_time + 5 * 2`. -/
theorem C7_counterexample :
    ¬ ((toggleClock countingDevice 2 lateState).sim_time = lateState.sim_time + 5 * 2) := by
  decide

/-- C7 (amended): for every `num ≥ 0` and every state, `toggleClock(num)` leaves
`sim_time = (sim_time before + 5 * num) mod 2^64`, which is
`sim_time before + 5 * num` whenever that sum is below `2^64`; it leaves
`clk_in = clk_in before XOR (num mod 2)` and every other pin as it was; the
default call (`num = 2`) restores `clk_in` and adds 10 to `sim_time` modulo
`2^64`; and for `num ≤ 0` nothing changes. -/
theorem C7_toggleClock_time_and_clock {σ : Type} (ev : Pins → σ → σ) (n : Nat) (m : Int)
    (s : State σ) (hc : s.pins.clk_in < 2 ^ W8) (ht : s.sim_time < 2 ^ W64) :
    (toggleClock ev (n : Int) s).sim_time = (s.sim_time + 5 * n) % 2 ^ W64 ∧
    (s.sim_time + 5 * n < 2 ^ W64 →
      (toggleClock ev (n : Int) s).sim_time = s.sim_time + 5 * n) ∧
    (toggleClock ev (n : Int) s).pins =
      { s.pins with clk_in := s.pins.clk_in ^^^ (n % 2) } ∧
    (toggleClock ev 2 s).pins = s.pins ∧
    (toggleClock ev 2 s).sim_time = (s.sim_time + 10) % 2 ^ W64 ∧
    (m ≤ 0 → toggleClock ev m s = s) := by
  have h2 : toggleClock ev 2 s = toggleLoop ev 2 s := rfl
  rw [toggleClock_natCast, h2]
  refine ⟨toggleLoop_sim_time ev n s ht, ?_, ?_, ?_,
    toggleLoop_sim_time ev 2 s ht, fun hm => toggleClock_nonpos ev m hm s⟩
  · intro h
    rw [toggleLoop_sim_time ev n s ht, Nat.mod_eq_of_lt h]
  · rw [toggleLoop_pins ev n s, flipClk_iterate n _ hc]
  · rw [toggleLoop_pins ev 2 s, flipClk_iterate 2 _ hc]
    show ({ s.pins with clk_in := s.pins.clk_in ^^^ 0 } : Pins) = s.pins
    rw [Nat.xor_zero]

/-- C7 witness: three toggles from the start state. -/
theorem C7_toggleClock_time_and_clock_witness :
    initState.pins.clk_in < 2 ^ W8 ∧ initState.sim_time < 2 ^ W64 ∧
    (toggleClock countingDevice (3 : Nat) initState).sim_time = 15 ∧
    (toggleClock countingDevice (3 : Nat) initState).pins.clk_in = 1 := by
  have h := C7_toggleClock_time_and_clock countingDevice 3 0 initState
    (by decide) (by decide)
  refine ⟨by decide, by decide, ?_, ?_⟩
  · rw [h.1]; decide
  · rw [h.2.2.1]; decide

/-- C8 (as stated) fails: from a clock counter ten ticks short of `2^64` the
two records of `toggleClock(2)` are stamped `2^64 - 5` and `0`: the second is
not `t + 10` and the stamps do not increase. -/
theorem C8_counterexample :
    ¬ (dumpTimes (toggleClock countingDevice 2 lateState).events =
          [lateState.sim_time + 5, lateState.sim_time + 10] ∧
       List.Pairwise (fun a b => a < b)
          (dumpTimes (toggleClock countingDevice 2 lateState).events)) := by
  decide

/-- C8 (amended): for every `num ≥ 0` and start time `t`, `toggleClock(num)`
appends to the record of calls, for each toggle `i = 0, ..., num - 1` in turn,
two device evaluations and then one trace record, all three with the clock pin
flipped `i + 1` times: exactly `num` trace records and `2 * num` evaluations.
The record of toggle `i` is stamped `(t + 5 * (i + 1)) mod 2^64`; whenever
`t + 5 * num < 2^64` the stamps are `t + 5, t + 10, ..., t + 5 * num` and
strictly increasing. -/
theorem C8_toggleClock_trace {σ : Type} (ev : Pins → σ → σ) (n : Nat) (s : State σ) :
    (toggleClock ev (n : Int) s).events =
      s.events ++ (List.range n).flatMap (fun i =>
        [Event.eval { s.pins with clk_in := flipClk^[i + 1] s.pins.clk_in },
         Event.eval { s.pins with clk_in := flipClk^[i + 1] s.pins.clk_in },
         Event.dump ((s.sim_time + 5 * (i + 1)) % 2 ^ W64)
           { s.pins with clk_in := flipClk^[i + 1] s.pins.clk_in }]) ∧
    (toggleClock ev (n : Int) s).events = s.events ++ toggleEvents s.pins s.sim_time n ∧
    (dumpTimes (toggleEvents s.pins s.sim_time n)).length = n ∧
    evalCount (toggleEvents s.pins s.sim_time n) = 2 * n ∧
    dumpTimes (toggleEvents s.pins s.sim_time n) =
      (List.range n).map (fun i => (s.sim_time + 5 * (i + 1)) % 2 ^ W64) ∧
    (s.sim_time + 5 * n < 2 ^ W64 →
      dumpTimes (toggleEvents s.pins s.sim_time n) =
        (List.range n).map (fun i => s.sim_time + 5 * (i + 1)) ∧
      List.Pairwise (fun a b => a < b) (dumpTimes (toggleEvents s.pins s.sim_time n))) := by
  have he := toggleLoop_events ev n s
  have hd := dumpTimes_flatMap s.pins s.sim_time (List.range n)
  rw [toggleClock_natCast]
  refine ⟨he, he, ?_, ?_, hd, ?_⟩
  · rw [toggleEvents, hd, List.length_map, List.length_range]
  · rw [toggleEvents, evalCount_flatMap, List.length_range]
  · intro h
    rw [toggleEvents, hd, stamps_no_wrap _ _ h]
    exact ⟨rfl, stamps_increasing _ _⟩

/-- C8 witness: two toggles from the start state stay below `2^64`. -/
theorem C8_toggleClock_trace_witness :
    initState.sim_time + 5 * 2 < 2 ^ W64 ∧
    dumpTimes (toggleEvents initState.pins initState.sim_time 2) = [5, 10] ∧
    List.Pairwise (fun a b => a < b)
      (dumpTimes (toggleEvents initState.pins initState.sim_time 2)) := by
  have h := (C8_toggleClock_trace countingDevice 2 initState).2.2.2.2.2 (by decide)
  exact ⟨by decide, h.1, h.2⟩

/-- C9 (as stated) fails: entered ten ticks short of `2^64`, `write_command`
returns with `sim_time = 30`, not `sim_time + 40`. -/
theorem C9_counterexample :
    ¬ ((write_command countingDevice false 3 0 payload18 lateState).sim_time =
          lateState.sim_time + 40) := by
  decide

/-- C9 (amended): for every `pre`, `col`, `bank_num`, payload and prior state,
`write_command` performs exactly 8 clock toggles (4 calls of `toggleClock()`):
it appends 8 trace records and 16 device evaluations, the record of toggle `k`
stamped `(sim_time + 5 * (k + 1)) mod 2^64`, and returns with
`sim_time = (sim_time before + 40) mod 2^64`, which is `sim_time before + 40`
whenever that is below `2^64`.  At every one of those evaluations and records
the pins hold `cs_N_in = 0`, `act_in = 0` and `addr_in = (1 << 16) | col`; on
return `cs_N_in = 1` and `dqs = 0`. -/
theorem C9_write_command_burst {σ : Type} (ev : Pins → σ → σ) (pre : Bool)
    (col : Fin (2 ^ COL_BITS)) (b : Nat) (d : Fin 8 → Nat) (s : State σ) :
    (write_command ev pre col b d s).events =
      s.events ++ writeEvents col b d s.pins s.sim_time ∧
    (dumpTimes (writeEvents col b d s.pins s.sim_time)).length = 8 ∧
    evalCount (writeEvents col b d s.pins s.sim_time) = 16 ∧
    dumpTimes (writeEvents col b d s.pins s.sim_time) =
      (List.range 8).map (fun k => (s.sim_time + 5 * (k + 1)) % 2 ^ W64) ∧
    (write_command ev pre col b d s).sim_time = (s.sim_time + 40) % 2 ^ W64 ∧
    (s.sim_time + 40 < 2 ^ W64 →
      (write_command ev pre col b d s).sim_time = s.sim_time + 40) ∧
    (∀ e ∈ writeEvents col b d s.pins s.sim_time,
      e.pins.cs_N_in = 0 ∧ e.pins.act_in = 0 ∧ e.pins.addr_in = (1 <<< 16) ||| col.val) ∧
    (write_command ev pre col b d s).pins.cs_N_in = 1 ∧
    (write_command ev pre col b d s).pins.dqs = 0 := by
  have hf := write_command_frameDqs ev pre col b d s
  simp only [frameDqs, Prod.mk.injEq] at hf
  refine ⟨write_command_events ev pre col b d s, rfl, rfl, rfl,
    write_command_sim_time ev pre col b d s, ?_, ?_, hf.1, hf.2.2.2.2.2⟩
  · intro h
    rw [write_command_sim_time, Nat.mod_eq_of_lt h]
  · intro e he
    obtain ⟨h1, h2, h3, -⟩ := writeEvents_frame col b d s.pins s.sim_time e he
    exact ⟨h1, h2, h3⟩

/-- C9 witness: a write of column 3 to bank 5 on the start state. -/
theorem C9_write_command_burst_witness :
    initState.sim_time + 40 < 2 ^ W64 ∧
    (write_command countingDevice true 3 5 payload18 initState).sim_time =
      initState.sim_time + 40 := by
  have h := C9_write_command_burst countingDevice true 3 5 payload18 initState
  exact ⟨by decide, h.2.2.2.2.2.1 (by decide)⟩

/-- C10 (failing input): `write_command` does not present all eight payload
words to the device.  For every payload, the values of `dqs` at the calls of
the data phase are word 1 six times (two toggles of two evaluations and one
record each), then word 3, word 5 and word 7 six times each; words 0, 2, 4 and
6 are overwritten before any evaluation.  With the payload `1, 2, ..., 8` on
the start state the words 1, 3, 5 and 7 (indices 0, 2, 4, 6) are never on
`dqs` at any evaluation or record. -/
theorem C10_write_drops_even_words {σ : Type} (ev : Pins → σ → σ) (pre : Bool)
    (col : Fin (2 ^ COL_BITS)) (b : Nat) (d : Fin 8 → Nat) (s : State σ) :
    (write_command ev pre col b d s).events =
      s.events ++ writeEvents col b d s.pins s.sim_time ∧
    dqsSeen (writeEvents col b d s.pins s.sim_time) =
      List.replicate 6 (d 1 % 2 ^ W64) ++ List.replicate 6 (d 3 % 2 ^ W64) ++
      List.replicate 6 (d 5 % 2 ^ W64) ++ List.replicate 6 (d 7 % 2 ^ W64) ∧
    dqsSeen (write_command countingDevice false 0 0 payload18 initState).events =
      List.replicate 6 2 ++ List.replicate 6 4 ++ List.replicate 6 6 ++ List.replicate 6 8 ∧
    payload18 0 ∉ dqsSeen (write_command countingDevice false 0 0 payload18 initState).events ∧
    payload18 2 ∉ dqsSeen (write_command countingDevice false 0 0 payload18 initState).events ∧
    payload18 4 ∉ dqsSeen (write_command countingDevice false 0 0 payload18 initState).events ∧
    payload18 6 ∉ dqsSeen (write_command countingDevice false 0 0 payload18 initState).events :=
  ⟨write_command_events ev pre col b d s, rfl, by decide, by decide, by decide, by decide,
    by decide⟩

/-- C11 (as stated) fails: `precharge(0)` right after
`write_command(false, 0, 0, payload)` on the start state changes the pins. -/
theorem C11_counterexample :
    ¬ ((precharge 0 (write_command countingDevice false 0 0 payload18 initState)).pins =
        (write_command countingDevice false 0 0 payload18 initState).pins) := by
  decide

/-- C11 (amended): no command is checked for legality.  For every bank, `col`
and payload, `precharge(bank)` called right after
`write_command(false, col, bank, payload)` returns as always and overwrites
`act_in` with 1 and `addr_in` with `1 << 15`; every other pin, the clock
counter, the device internals and the record of device calls stay as
`write_command` left them. -/
theorem C11_precharge_after_write {σ : Type} (ev : Pins → σ → σ)
    (col : Fin (2 ^ COL_BITS)) (b : Nat) (d : Fin 8 → Nat) (s : State σ) :
    (precharge b (write_command ev false col b d s)).pins =
      { (write_command ev false col b d s).pins with act_in := 1, addr_in := 1 <<< 15 } ∧
    (precharge b (write_command ev false col b d s)).sim_time =
      (write_command ev false col b d s).sim_time ∧
    (precharge b (write_command ev false col b d s)).model =
      (write_command ev false col b d s).model ∧
    (precharge b (write_command ev false col b d s)).events =
      (write_command ev false col b d s).events := by
  refine ⟨?_, rfl, rfl, rfl⟩
  have hw := write_command_frameDqs ev false col b d s
  have hp := precharge_frameDqs b (write_command ev false col b d s)
  simp only [frameDqs, Prod.mk.injEq] at hw
  rw [hw.2.2.2.1, hw.2.2.2.2.1, or_mod_idem, or_mod_idem] at hp
  simp only [frameDqs, Prod.mk.injEq] at hp
  obtain ⟨h1, h2, h3, h4, h5, h6⟩ := hp
  have hpins : ∀ p q : Pins, p.clk_in = q.clk_in → p.rst_N_in = q.rst_N_in →
      p.cs_N_in = q.cs_N_in → p.cke_in = q.cke_in → p.act_in = q.act_in →
      p.addr_in = q.addr_in → p.bg_in = q.bg_in → p.ba_in = q.ba_in →
      p.dqm_in = q.dqm_in → p.dqs = q.dqs → p = q := by
    intro p q a1 a2 a3 a4 a5 a6 a7 a8 a9 a10
    cases p; cases q
    simp only at a1 a2 a3 a4 a5 a6 a7 a8 a9 a10
    subst a1 a2 a3 a4 a5 a6 a7 a8 a9 a10
    rfl
  apply hpins
  · rfl
  · rfl
  · exact h1.trans hw.1.symm
  · rfl
  · exact h2
  · exact h3
  · exact h4.trans hw.2.2.2.1.symm
  · exact h5.trans hw.2.2.2.2.1.symm
  · rfl
  · exact h6.trans hw.2.2.2.2.2.symm

/-- C12 (failing input): `activate` does not return when its `clock` argument
is not zero.  For every amount of fuel, every bank, row and state, the loop is
still running when the fuel is out, for `clock = 1` and for every other
non-zero 32-bit value `c mod (2^32 - 1) + 1`; only `clock = 0` returns. -/
theorem C12_activate_never_returns {σ : Type} (fuel bank_num row c : Nat) (s : State σ) :
    activate fuel bank_num row 1 s = none ∧
    activate fuel bank_num row (c % (2 ^ 32 - 1) + 1) s = none ∧
    activate (fuel + 1) bank_num row 0 s = some s := by
  refine ⟨activateLoop_nonzero _ _ _ (by decide) fuel s, ?_, activateLoop_zero fuel _ _ s⟩
  apply activateLoop_nonzero
  have h : c % (2 ^ 32 - 1) < 2 ^ 32 - 1 := Nat.mod_lt _ (by decide)
  rw [Nat.mod_eq_of_lt (by omega)]
  omega

/-- C13 (as stated) fails: `activate(0, 5, 0)` on the start state returns with
the clock counter where it was, not `10 * ACTIVATION_LATENCY` later. -/
theorem C13_counterexample :
    activate 1 0 5 0 initState = some initState ∧
    ¬ (initState.sim_time = initState.sim_time + 10 * ACTIVATION_LATENCY) :=
  ⟨rfl, by decide⟩

/-- C13 (amended): `activate` never advances the clock.  For every bank, row and
`clock`, whenever a call of `activate` made at time `T` returns, the state is
the one before the call: `sim_time = T`, no device evaluation and no trace
record were made, no pin was changed.  The call does return when `clock = 0`. -/
theorem C13_activate_no_clock {σ : Type} (fuel bank_num row clock : Nat) (s r : State σ)
    (h : activate fuel bank_num row clock s = some r) :
    r.sim_time = s.sim_time ∧ r.events = s.events ∧ r.pins = s.pins ∧ r = s ∧
    activate (fuel + 1) bank_num row 0 s = some s := by
  obtain ⟨-, hr⟩ := activateLoop_some _ _ _ _ _ _ h
  subst hr
  exact ⟨rfl, rfl, rfl, rfl, activateLoop_zero fuel _ _ r⟩

/-- C13 witness: `activate(1, 5, 0)` on the start state. -/
theorem C13_activate_no_clock_witness :
    activate 3 1 5 0 initState = some initState ∧
    initState.sim_time = initState.sim_time ∧ initState.events = initState.events :=
  ⟨rfl, (C13_activate_no_clock 3 1 5 0 initState initState rfl).1,
    (C13_activate_no_clock 3 1 5 0 initState initState rfl).2.1⟩

/-- C14 (as stated) fails: `precharge(0)` on the start state returns with the
clock counter where it was, not `10 * PRECHARGE_LATENCY` later. -/
theorem C14_counterexample :
    ¬ ((precharge 0 initState).sim_time = initState.sim_time + 10 * PRECHARGE_LATENCY) := by
  decide

/-- C14 (amended): `precharge` never advances the clock.  For every bank and
state, a call made at time `T` returns with `sim_time = T`, with no device
evaluation and no trace record made and the device internals untouched; on
return the precharge frame (`addr_in = 1 << 15`, `act_in = 1`) is on the pins
with `cs_N_in = 1`. -/
theorem C14_precharge_no_clock {σ : Type} (bank_num : Nat) (s : State σ) :
    (precharge bank_num s).sim_time = s.sim_time ∧
    (precharge bank_num s).events = s.events ∧
    (precharge bank_num s).model = s.model ∧
    (precharge bank_num s).pins.clk_in = s.pins.clk_in ∧
    (precharge bank_num s).pins.addr_in = 1 <<< 15 ∧
    (precharge bank_num s).pins.act_in = 1 ∧
    (precharge bank_num s).pins.cs_N_in = 1 := by
  have hp := precharge_frameDqs bank_num s
  simp only [frameDqs, Prod.mk.injEq] at hp
  exact ⟨rfl, rfl, rfl, rfl, hp.2.2.1, hp.2.1, hp.1⟩

/-- C15 (as stated) fails: `read_command(false, 0, 0)` on the start state
returns with the clock counter where it was. -/
theorem C15_counterexample :
    ¬ (initState.sim_time < (read_command false 0 0 initState).sim_time) := by
  decide

/-- C15 (amended): `read_command` never advances the clock and captures
nothing.  For every `pre`, `col`, `bank_num` and state it returns with
`sim_time`, the record of device calls and the device internals as they were
(no device evaluation, no trace record); what it leaves is the read frame on
the pins (`addr_in = 2^16 + 2^14 + pre * 2^10 + col`, `act_in = 0`) with
`cs_N_in = 1` and `dqs = 0`. -/
theorem C15_read_command_no_clock {σ : Type} (pre : Bool) (col : Fin (2 ^ COL_BITS))
    (bank_num : Nat) (s : State σ) :
    (read_command pre col bank_num s).sim_time = s.sim_time ∧
    (read_command pre col bank_num s).events = s.events ∧
    (read_command pre col bank_num s).model = s.model ∧
    (read_command pre col bank_num s).pins.clk_in = s.pins.clk_in ∧
    (read_command pre col bank_num s).pins.addr_in = readAddr pre col ∧
    (read_command pre col bank_num s).pins.act_in = 0 ∧
    (read_command pre col bank_num s).pins.cs_N_in = 1 ∧
    (read_command pre col bank_num s).pins.dqs = 0 := by
  have hp := read_command_frameDqs pre col bank_num s
  simp only [frameDqs, Prod.mk.injEq] at hp
  refine ⟨rfl, rfl, rfl, ?_, hp.2.2.1, hp.2.1, hp.1, hp.2.2.2.2.2⟩
  cases pre <;> rfl

/-- C16: the loop of `main` ends and never hangs in `activate`.  For every
device, whatever the ports and internals of the freshly constructed device,
and for every fuel of at least 201, `main` leaves its loop after exactly 200
iterations; the iterations start at `sim_time = 10, 40, ..., 5980`, each 30
after the one before; all 400 calls of `activate` get `clock = 0`; and the
loop exits with `sim_time = 6010`, the first of these values not below
`max_sim_time`. -/
theorem C16_main_loop_terminates {σ : Type} (ev : Pins → σ → σ) (k : Nat) (pins0 : Pins)
    (model0 : σ) :
    ∃ r, main ev (201 + k) pins0 model0 = some r ∧
      r.iterations = 200 ∧
      r.final.sim_time = 6010 ∧
      r.startTimes = (List.range 200).map (fun i => 10 + 30 * i) ∧
      r.activateClocks = List.replicate 400 0 ∧
      6010 - 30 < max_sim_time ∧ max_sim_time ≤ 6010 := by
  have ht : (toggleClock ev 2
      ({ pins := pins0, model := model0, sim_time := 0, events := [] } : State σ)).sim_time
      = 10 := by
    rw [tc2_sim_time]
    show (0 + 10) % 2 ^ W64 = 10
    decide
  obtain ⟨r, hr, hi, hf, -, hst, hac⟩ := mainLoop_run ev k 200
    (doDump (doEval ev
      { toggleClock ev 2
          ({ pins := pins0, model := model0, sim_time := 0, events := [] } : State σ) with
        pins := { (toggleClock ev 2
          ({ pins := pins0, model := model0, sim_time := 0, events := [] } : State σ)).pins with
          rst_N_in := 1, clk_in := 0 } }))
    rfl (by show (toggleClock ev 2 _).sim_time + 30 * 200 = 6010; rw [ht]) (Nat.le_refl _)
  refine ⟨r, ?_, hi, hf, ?_, hac, by decide, by decide⟩
  · have h201 : 201 + k = k + 200 + 1 := by omega
    rw [h201]
    exact hr
  · rw [hst]
    show (List.range 200).map (fun i => (toggleClock ev 2 _).sim_time + 30 * i) = _
    rw [ht]

/-- C17 (as stated) fails in its last clause.  After a command to bank 1, two
commands to bank 0 leave the pins selecting bank 1, not `0 OR 0`; and from the
start state a command to bank 8 followed by a command to bank 0 leaves the
pins selecting bank 0, which is neither `8 OR 0` nor different from the second
bank although 8 has a bit that 0 lacks. -/
theorem C17_counterexample :
    ¬ (selectedBank (runCmds countingDevice [Cmd.precharge 0, Cmd.precharge 0]
          afterBank1).pins = 0 ||| 0) ∧
    ¬ (selectedBank (runCmds countingDevice [Cmd.precharge 8, Cmd.precharge 0]
          initState).pins = 8 ||| 0) ∧
    Nat.testBit 8 3 = true ∧ Nat.testBit 0 3 = false ∧
    selectedBank (runCmds countingDevice [Cmd.precharge 8, Cmd.precharge 0]
          initState).pins = 0 := by
  decide

/-- C17 (amended): the bank-select pins are sticky.  On pins that fit their
8-bit ports (as every command leaves them), each call of `precharge`,
`write_command` or `read_command` leaves
`bg_in = bg_in before OR (bank_num AND 1)` and
`ba_in = ba_in before OR ((bank_num AND 6) >> 1)`; over every sequence of such
calls a bit once set in `bg_in` or `ba_in` stays set; a command to bank `b1`
followed by a command to bank `b2`, both below 8 and starting from cleared
bank pins (`bg_in = 0`, `ba_in = 0`), leaves the pins selecting bank
`b1 OR b2`; and from any pins, for `b1` below 8, it leaves them selecting a
bank that differs from `b2` whenever `b1` has a bit that `b2` lacks. -/
theorem C17_bank_pins_sticky {σ : Type} (ev : Pins → σ → σ) (c c1 c2 : Cmd)
    (cs : List Cmd) (s : State σ)
    (hbg : s.pins.bg_in < 2 ^ W8) (hba : s.pins.ba_in < 2 ^ W8) :
    (runCmd ev c s).pins.bg_in = s.pins.bg_in ||| (c.bank &&& 1) ∧
    (runCmd ev c s).pins.ba_in = s.pins.ba_in ||| ((c.bank &&& 6) >>> 1) ∧
    (runCmd ev c s).pins.bg_in < 2 ^ W8 ∧ (runCmd ev c s).pins.ba_in < 2 ^ W8 ∧
    (∀ i, s.pins.bg_in.testBit i = true → (runCmds ev cs s).pins.bg_in.testBit i = true) ∧
    (∀ i, s.pins.ba_in.testBit i = true → (runCmds ev cs s).pins.ba_in.testBit i = true) ∧
    (s.pins.bg_in = 0 → s.pins.ba_in = 0 → c1.bank < 8 → c2.bank < 8 →
      selectedBank (runCmds ev [c1, c2] s).pins = c1.bank ||| c2.bank) ∧
    (c1.bank < 8 → ∀ i, c1.bank.testBit i = true → c2.bank.testBit i = false →
      selectedBank (runCmds ev [c1, c2] s).pins ≠ c2.bank) := by
  obtain ⟨h1, h2⟩ := runCmd_bank_or ev c s hbg hba
  obtain ⟨l1, l2⟩ := runCmd_bank_lt ev c s
  obtain ⟨s1, s2⟩ := runCmds_sticky ev cs s hbg hba
  refine ⟨h1, h2, l1, l2, s1, s2, ?_, ?_⟩
  · intro z1 z2 hb1 hb2
    have e2 := runCmd_bank ev c2 (runCmd ev c1 s)
    have e1 := runCmd_bank ev c1 s
    simp only [bankPins, Prod.mk.injEq] at e1 e2
    rw [e1.1, e1.2, z1, z2] at e2
    show selectedBank (runCmd ev c2 (runCmd ev c1 s)).pins = _
    rw [selectedBank, e2.1, e2.2]
    exact two_from_zero ⟨c1.bank, hb1⟩ ⟨c2.bank, hb2⟩
  · intro hb1 i hi hn heq
    obtain ⟨m1, m2⟩ := runCmd_bank_lt ev c1 s
    have a1 := (selectedBank_step ev c1 s hbg hba i).2 hb1 hi
    have a2 := (selectedBank_step ev c2 (runCmd ev c1 s) m1 m2 i).1 a1
    have a3 : (selectedBank (runCmds ev [c1, c2] s).pins).testBit i = true := a2
    rw [heq, hn] at a3
    cases a3

/-- C17 witness: the start state has cleared bank pins; a write to bank 1
followed by a precharge of bank 6 selects bank 7, not bank 6. -/
theorem C17_bank_pins_sticky_witness :
    initState.pins.bg_in < 2 ^ W8 ∧ initState.pins.ba_in < 2 ^ W8 ∧
    initState.pins.bg_in = 0 ∧ initState.pins.ba_in = 0 ∧ 1 < 8 ∧ 6 < 8 ∧
    Nat.testBit 1 0 = true ∧ Nat.testBit 6 0 = false ∧
    selectedBank (runCmds countingDevice
      [Cmd.write false 0 1 payload18, Cmd.precharge 6] initState).pins = 1 ||| 6 ∧
    selectedBank (runCmds countingDevice
      [Cmd.write false 0 1 payload18, Cmd.precharge 6] initState).pins ≠ 6 := by
  have h := C17_bank_pins_sticky countingDevice (Cmd.precharge 1)
    (Cmd.write false 0 1 payload18) (Cmd.precharge 6) [] initState (by decide) (by decide)
  exact ⟨by decide, by decide, rfl, rfl, by decide, by decide, by decide, by decide,
    h.2.2.2.2.2.2.1 rfl rfl (by decide) (by decide),
    h.2.2.2.2.2.2.2 (by decide) 0 (by decide) (by decide)⟩

/-- C18: `write_command` never presents the auto-precharge flag to the device.
For every `pre`, `col`, `bank_num`, payload and prior state, the calls made
during `write_command` are the eight toggles of its data phase, and bit 10 of
`addr_in` is clear at every evaluation and in every trace record among them;
the bit is written after the last toggle, so that on return it equals `pre`
with chip select deasserted (`cs_N_in = 1`). -/
theorem C18_write_precharge_bit_unseen {σ : Type} (ev : Pins → σ → σ) (pre : Bool)
    (col : Fin (2 ^ COL_BITS)) (b : Nat) (d : Fin 8 → Nat) (s : State σ) :
    (write_command ev pre col b d s).events =
      s.events ++ writeEvents col b d s.pins s.sim_time ∧
    (dumpTimes (writeEvents col b d s.pins s.sim_time)).length = 8 ∧
    (∀ e ∈ writeEvents col b d s.pins s.sim_time, e.pins.addr_in.testBit 10 = false) ∧
    (write_command ev pre col b d s).pins.addr_in.testBit 10 = pre ∧
    (write_command ev pre col b d s).pins.cs_N_in = 1 := by
  have hf := write_command_frameDqs ev pre col b d s
  simp only [frameDqs, Prod.mk.injEq] at hf
  refine ⟨write_command_events ev pre col b d s, rfl, ?_, ?_, hf.1⟩
  · intro e he
    exact (writeEvents_frame col b d s.pins s.sim_time e he).2.2.2
  · rw [hf.2.2.1]
    exact (writeAddr_bits pre col).2.2.1

/-- C18 witness: the last trace record of a write with `pre = true` on the
start state has bit 10 of `addr_in` clear. -/
theorem C18_write_precharge_bit_unseen_witness :
    Event.dump 40 (writeBeat 3 5 payload18 initState.pins 7) ∈
      writeEvents 3 5 payload18 initState.pins initState.sim_time ∧
    (Event.dump 40 (writeBeat 3 5 payload18 initState.pins 7)).pins.addr_in.testBit 10
      = false := by
  have h := C18_write_precharge_bit_unseen countingDevice true 3 5 payload18 initState
  exact ⟨by decide, h.2.2.1 _ (by decide)⟩

/-- C19: `dut_reset` puts the interface in the idle reset state without
touching the clock.  For every state with `sim_time ≤ max_sim_time` it returns
with `rst_N_in = 0`, `cs_N_in = 1` and `cke_in`, `act_in`, `addr_in`, `bg_in`,
`ba_in`, `dqm_in`, `dqs` all 0; for `sim_time > max_sim_time` it only sets
`rst_N_in = 1`; in both cases `clk_in`, `sim_time`, the device internals and
the record of device calls are unchanged. -/
theorem C19_dut_reset {σ : Type} (s : State σ) :
    (s.sim_time ≤ max_sim_time →
      (dut_reset s).pins =
        { clk_in := s.pins.clk_in, rst_N_in := 0, cs_N_in := 1, cke_in := 0, act_in := 0,
          addr_in := 0, bg_in := 0, ba_in := 0, dqm_in := 0, dqs := 0 }) ∧
    (max_sim_time < s.sim_time → (dut_reset s).pins = { s.pins with rst_N_in := 1 }) ∧
    (dut_reset s).pins.clk_in = s.pins.clk_in ∧
    (dut_reset s).sim_time = s.sim_time ∧
    (dut_reset s).model = s.model ∧
    (dut_reset s).events = s.events := by
  by_cases h : s.sim_time ≤ max_sim_time
  · have hc : (0 ≤ s.sim_time ∧ s.sim_time ≤ max_sim_time) := ⟨Nat.zero_le _, h⟩
    have e : dut_reset s = { s with pins :=
        { clk_in := s.pins.clk_in, rst_N_in := 0, cs_N_in := 1, cke_in := 0, act_in := 0,
          addr_in := 0, bg_in := 0, ba_in := 0, dqm_in := 0, dqs := 0 } } := by
      simp only [dut_reset, hc, and_self, if_true]
    rw [e]
    exact ⟨fun _ => rfl, fun h2 => absurd h (Nat.not_le.mpr h2), rfl, rfl, rfl, rfl⟩
  · have hc : ¬ (0 ≤ s.sim_time ∧ s.sim_time ≤ max_sim_time) := fun hh => h hh.2
    have e : dut_reset s = { s with pins := { s.pins with rst_N_in := 1 } } := by
      simp only [dut_reset, hc, if_false]
    rw [e]
    exact ⟨fun h2 => absurd h2 h, fun _ => rfl, rfl, rfl, rfl, rfl⟩

/-- C19 witness: the state the pins are in after a command to bank 1, once at
`sim_time = 0` and once past `max_sim_time`. -/
theorem C19_dut_reset_witness :
    afterBank1.sim_time ≤ max_sim_time ∧
    (dut_reset afterBank1).pins = { zeroPins with cs_N_in := 1 } ∧
    max_sim_time < lateState.sim_time ∧
    (dut_reset lateState).pins = { lateState.pins with rst_N_in := 1 } := by
  refine ⟨by decide, ?_, by decide, (C19_dut_reset lateState).2.1 (by decide)⟩
  rw [(C19_dut_reset afterBank1).1 (by decide)]
  decide

end DimmTb2
